import Mathlib

/-!
Shallow embedding of `remove_old_files.py`: a directory-cleanup utility that
deletes files older than a cutoff, with exclusions, dry-run mode, optional
recursion and hidden-file filtering, and several timestamp sources.

Paths are modelled as lists of path segments (the leading root separator is
implicit).  The file system is an association list from paths to stat
metadata.  Timestamps are UNIX seconds as integers.
-/

namespace RemoveOldFiles

/-- A filesystem path, as the list of its segments (absolute; the leading
separator is implicit). -/
abbrev FilePath := List String

/-- Stat metadata of a file: the three filesystem timestamps. -/
structure FileMeta where
  mtime : Int
  atime : Int
  ctime : Int
  deriving Repr, DecidableEq

/-- The file system: an association list from (exact, as-produced) paths to
stat metadata.  A path not in the list does not exist. -/
abbrev FS := List (FilePath × FileMeta)

/-- Look a path up in the file system (`os.stat` and friends). -/
def statOf : FS → FilePath → Option FileMeta
  | [], _ => none
  | e :: rest, p => if e.1 = p then some e.2 else statOf rest p

/-- Segment-level core of `os.path.normpath` for absolute paths: drops empty
and `.` segments, resolves `..` against the accumulated prefix (at the root,
`..` is dropped, as for absolute POSIX paths). -/
def normSegsAux : List String → List String → List String
  | acc, [] => acc.reverse
  | acc, s :: rest =>
    if s = "" ∨ s = "." then normSegsAux acc rest
    else if s = ".." then
      match acc with
      | [] => normSegsAux [] rest
      | _ :: t => normSegsAux t rest
    else normSegsAux (s :: acc) rest

/-- `os.path.normpath` on an absolute path given by its segments. -/
def normpath (p : FilePath) : FilePath := normSegsAux [] p

/-- `str.startswith('.')`: does the string start with a dot? -/
def startsWithDot (s : String) : Bool :=
  match s.data with
  | [] => false
  | c :: _ => c = '.'

/-- Python `str.strip()`: drop whitespace from both ends. -/
def pyStrip (s : String) : String :=
  ⟨((s.data.dropWhile Char.isWhitespace).reverse.dropWhile
      Char.isWhitespace).reverse⟩

/-- Split a string on the path separator, accumulating the current segment in
reverse. -/
def splitOnSlashAux : List Char → List Char → List String
  | [], acc => [⟨acc.reverse⟩]
  | c :: rest, acc =>
    if c = '/' then ⟨acc.reverse⟩ :: splitOnSlashAux rest []
    else splitOnSlashAux rest (c :: acc)

/-- Split a string on the path separator (`"a/b"` to `["a", "b"]`, a plain
name to itself). -/
def splitOnSlash (s : String) : List String := splitOnSlashAux s.data []

/-- `os.path.join(dir, name)` for a relative `name`: the name is split on the
separator and appended to the directory's segments. -/
def joinPath (dir : FilePath) (name : String) : FilePath :=
  dir ++ splitOnSlash name

/-- Outcome of the `git log -1 --format=%ct -- path` subprocess when the
invocation itself does not raise: an exit code and captured stdout. -/
structure GitResult where
  returncode : Int
  stdout : String

/-- Numeric value of a list of decimal digit characters; `none` when the list
is empty or contains a non-digit (Python `int(...)` raising `ValueError`). -/
def digitsVal : List Char → Option Nat
  | [] => none
  | l =>
    if l.all Char.isDigit then
      some (l.foldl (fun a c => a * 10 + (c.toNat - 48)) 0)
    else none

/-- Python `int(s)` on an already-stripped string: optional sign followed by
decimal digits; `none` models `ValueError`. -/
def pyInt (s : String) : Option Int :=
  match s.data with
  | '-' :: rest => (digitsVal rest).map (fun n => -(n : Int))
  | '+' :: rest => (digitsVal rest).map (fun n => (n : Int))
  | l => (digitsVal l).map (fun n => (n : Int))

/-- `git_last_commit_timestamp`: last commit UNIX timestamp for a tracked
file; `None` if unavailable.  `res` is the subprocess outcome (`none` when the
invocation raised; the surrounding `try` catches every exception, including
the `int` parse failure). -/
def git_last_commit_timestamp (res : Option GitResult) : Option Int :=
  match res with
  | none => none
  | some r =>
    if r.returncode ≠ 0 then none
    else
      let value := pyStrip r.stdout
      if value = "" then none
      else pyInt value

/-- `os.path.getmtime`: modification time, or a `FileNotFoundError` when the
path does not exist. -/
def getmtime (fs : FS) (p : FilePath) : Except Unit Int :=
  match statOf fs p with
  | some m => .ok m.mtime
  | none => .error ()

/-- `os.path.getatime`. -/
def getatime (fs : FS) (p : FilePath) : Except Unit Int :=
  match statOf fs p with
  | some m => .ok m.atime
  | none => .error ()

/-- `os.path.getctime`. -/
def getctime (fs : FS) (p : FilePath) : Except Unit Int :=
  match statOf fs p with
  | some m => .ok m.ctime
  | none => .error ()

/-- `get_timestamp(path, source)`.  `gitOf` gives, per path, the subprocess
outcome of the git invocation (static for the duration of a sweep). -/
def get_timestamp (gitOf : FilePath → Option GitResult) (fs : FS)
    (path : FilePath) (source : String) : Except Unit Int :=
  if source = "mtime" then getmtime fs path
  else if source = "atime" then getatime fs path
  else if source = "ctime" then getctime fs path
  else if source = "git" then
    match git_last_commit_timestamp (gitOf path) with
    | some ts => .ok ts
    | none => getmtime fs path
  else getmtime fs path

mutual
/-- An entry of the directory tree below the root: a regular file with its
stat metadata, or a subdirectory with its children (a mutual inductive so
that the traversal below is structurally recursive). -/
inductive Entry where
  | file (name : String) (meta : FileMeta)
  | dir (name : String) (children : EntryList)
/-- A directory listing: a list of entries. -/
inductive EntryList where
  | nil
  | cons (e : Entry) (rest : EntryList)
end

/-- The top-level entries of a directory listing, as a plain list. -/
def EntryList.toList : EntryList → List Entry
  | .nil => []
  | .cons e rest => e :: rest.toList

/-- Build a directory listing from a plain list of entries. -/
def EntryList.ofList : List Entry → EntryList
  | [] => .nil
  | e :: r => .cons e (EntryList.ofList r)

/-- `is_hidden` (inner helper of `iter_files`): a path is hidden when any
segment of its path relative to the root starts with a dot. -/
def is_hidden (rel : List String) : Bool :=
  rel.any (fun part => startsWithDot part)

/-- The regular files directly in a directory whose relative path is `pref`,
filtered by the hidden check (the `yield` sites of `iter_files`).  Paths are
returned relative to the root. -/
def filesOf (include_hidden : Bool) (pref : List String) :
    EntryList → List (List String)
  | .nil => []
  | .cons (.file name _) rest =>
    if !include_hidden && is_hidden (pref ++ [name]) then
      filesOf include_hidden pref rest
    else (pref ++ [name]) :: filesOf include_hidden pref rest
  | .cons (.dir _ _) rest => filesOf include_hidden pref rest

/-- The recursive descent of `os.walk`: for each subdirectory surviving the
hidden-pruning (`dirs[:] = [d for d in dirs if not d.startswith('.')]` when
`include_hidden` is false), yield its files and then descend. -/
def descend (include_hidden : Bool) (pref : List String) :
    EntryList → List (List String)
  | .nil => []
  | .cons (.file _ _) rest => descend include_hidden pref rest
  | .cons (.dir name children) rest =>
    (if !include_hidden && startsWithDot name then []
     else
       filesOf include_hidden (pref ++ [name]) children ++
         descend include_hidden (pref ++ [name]) children) ++
      descend include_hidden pref rest

/-- `iter_files(directory, recursive, include_hidden)`: the sequence of
candidate paths, relative to the root.  Non-recursive mode lists the regular
files directly in the root; recursive mode is `os.walk` with hidden-directory
pruning.  In both modes hidden paths are skipped unless `include_hidden`. -/
def iter_files (entries : EntryList) (recursive include_hidden : Bool) :
    List (List String) :=
  if recursive then
    filesOf include_hidden [] entries ++ descend include_hidden [] entries
  else
    filesOf include_hidden [] entries

/-- `os.remove`: drop the entry with exactly this path. -/
def os_remove (fs : FS) (p : FilePath) : FS :=
  fs.filter (fun e => e.1 ≠ p)

/-- Environment of one sweep: the git subprocess outcomes and which paths
`os.remove` would fail on (permission / I/O errors). -/
structure SweepEnv where
  gitOf : FilePath → Option GitResult
  removeFails : FilePath → Bool

/-- Mutable state of the sweep loop: the file system plus the three
counters. -/
structure SweepState where
  fs : FS
  removed : Nat
  considered : Nat
  skipped_excluded : Nat
  deriving Repr

/-- One iteration of the loop body of `remove_old_files` on candidate
`file_path`.  The loop body first increments `considered`, then either skips
an excluded path, skips a path whose timestamp resolution raises
`FileNotFoundError`, or compares the timestamp against the cutoff and
removes (really, or in dry-run only by counting); a failing `os.remove` is
caught and leaves everything but `considered` unchanged.  The `considered`
increment is inlined into every branch. -/
def sweepStep (env : SweepEnv) (cutoff : Int) (excluded : List FilePath)
    (dry_run : Bool) (age_source : String) (st : SweepState)
    (file_path : FilePath) : SweepState :=
  if normpath file_path ∈ excluded then
    { st with considered := st.considered + 1,
              skipped_excluded := st.skipped_excluded + 1 }
  else
    match get_timestamp env.gitOf st.fs file_path age_source with
    | .error _ => { st with considered := st.considered + 1 }
    | .ok file_ts =>
      if file_ts < cutoff then
        if dry_run then
          { st with considered := st.considered + 1,
                    removed := st.removed + 1 }
        else
          if env.removeFails file_path = true ∨ statOf st.fs file_path = none
          then { st with considered := st.considered + 1 }
          else
            { st with considered := st.considered + 1,
                      fs := os_remove st.fs file_path,
                      removed := st.removed + 1 }
      else { st with considered := st.considered + 1 }

/-- The sweep loop: fold the loop body over the candidate sequence. -/
def sweepRun (env : SweepEnv) (cutoff : Int) (excluded : List FilePath)
    (dry_run : Bool) (age_source : String) (st : SweepState)
    (candidates : List FilePath) : SweepState :=
  candidates.foldl (sweepStep env cutoff excluded dry_run age_source) st

/-- The absolute candidate paths fed to the loop: the enumerator's relative
paths joined with the root directory. -/
def candidatesOf (directory : FilePath) (entries : EntryList)
    (recursive include_hidden : Bool) : List FilePath :=
  (iter_files entries recursive include_hidden).map (fun rel => directory ++ rel)

/-- The normalized excluded-path set:
`set(os.path.normpath(os.path.join(directory, f)) for f in exclude_filenames)`. -/
def excludedOf (directory : FilePath) (exclude_filenames : List String) :
    List FilePath :=
  exclude_filenames.map (fun f => normpath (joinPath directory f))

/-- `remove_old_files(directory, exclude_filenames, days, ...)`.  `now` is
`time.time()`, `fs0` the file-system contents at the start of the sweep, and
`entries` the directory tree below `directory` that the enumerator walks. -/
def remove_old_files (now : Int) (env : SweepEnv) (fs0 : FS)
    (entries : EntryList) (directory : FilePath)
    (exclude_filenames : List String) (days : Int) (dry_run : Bool)
    (recursive : Bool) (include_hidden : Bool) (age_source : String) :
    SweepState :=
  sweepRun env (now - days * 86400) (excludedOf directory exclude_filenames)
    dry_run age_source
    { fs := fs0, removed := 0, considered := 0, skipped_excluded := 0 }
    (candidatesOf directory entries recursive include_hidden)

/-- A candidate qualifies for (dry-run) removal: not excluded, timestamp
resolves, and the timestamp is strictly below the cutoff. -/
def dryQualifies (gitOf : FilePath → Option GitResult) (fs : FS)
    (excluded : List FilePath) (cutoff : Int) (age_source : String)
    (p : FilePath) : Bool :=
  !decide (normpath p ∈ excluded) &&
    (match get_timestamp gitOf fs p age_source with
     | .ok ts => decide (ts < cutoff)
     | .error _ => false)

/-- A plain path segment: nonempty and not one of the special `.`/`..`
components (as every name returned by the directory enumeration is). -/
def plainSeg (s : String) : Prop := s ≠ "" ∧ s ≠ "." ∧ s ≠ ".."

/-- A plain file name: a single plain segment with no separator in it. -/
def plainName (s : String) : Prop := splitOnSlash s = [s] ∧ plainSeg s

instance (s : String) : Decidable (plainSeg s) :=
  inferInstanceAs (Decidable (s ≠ "" ∧ s ≠ "." ∧ s ≠ ".."))

instance (s : String) : Decidable (plainName s) :=
  inferInstanceAs (Decidable (splitOnSlash s = [s] ∧ plainSeg s))

/-! ### Concrete fixtures used to evaluate the model on closed inputs -/

/-- Stat metadata of an old file (epoch timestamps). -/
def exMetaOld : FileMeta := ⟨0, 0, 0⟩

/-- Stat metadata of a recent file. -/
def exMetaNew : FileMeta := ⟨8000000, 8000000, 8000000⟩

/-- An environment where git never answers and removal always succeeds. -/
def exEnv : SweepEnv := ⟨fun _ => none, fun _ => false⟩

/-- An environment where git never answers and every removal fails. -/
def exEnvFail : SweepEnv := ⟨fun _ => none, fun _ => true⟩

/-- A small directory tree: an old and a new file at the root, the old file
again inside `sub`, and an old file inside a hidden directory. -/
def exEntries : EntryList :=
  EntryList.ofList
    [Entry.file "a.txt" exMetaOld, Entry.file "b.txt" exMetaNew,
     Entry.dir "sub" (EntryList.ofList [Entry.file "a.txt" exMetaOld]),
     Entry.dir ".hidden" (EntryList.ofList [Entry.file "old.txt" exMetaOld])]

/-- The stat view of `exEntries` rooted at `root` (the hidden file is present
on disk even though the default enumeration never visits it). -/
def exFS : FS :=
  [(["root", "a.txt"], exMetaOld), (["root", "b.txt"], exMetaNew),
   (["root", "sub", "a.txt"], exMetaOld),
   (["root", ".hidden", "old.txt"], exMetaOld)]

/-! ### Basic lemmas about lookup and removal -/

theorem statOf_os_remove_self (fs : FS) (p : FilePath) :
    statOf (os_remove fs p) p = none := by
  induction fs with
  | nil => rfl
  | cons e rest ih =>
    by_cases h : e.1 = p
    · simpa [os_remove, List.filter_cons, h] using ih
    · simpa [os_remove, List.filter_cons, h, statOf] using ih

theorem statOf_os_remove_ne (fs : FS) {p q : FilePath} (h : q ≠ p) :
    statOf (os_remove fs p) q = statOf fs q := by
  induction fs with
  | nil => rfl
  | cons e rest ih =>
    by_cases he : e.1 = p
    · have hne : e.1 ≠ q := fun hq => h (hq.symm.trans he)
      rw [show os_remove (e :: rest) p = os_remove rest p by
            simp [os_remove, List.filter_cons, he],
          show statOf (e :: rest) q = statOf rest q by simp [statOf, hne]]
      exact ih
    · rw [show os_remove (e :: rest) p = e :: os_remove rest p by
            simp [os_remove, List.filter_cons, he]]
      by_cases hq : e.1 = q
      · simp [statOf, hq]
      · simp [statOf, hq, ih]

theorem statOf_none_os_remove (fs : FS) {p q : FilePath}
    (h : statOf fs q = none) : statOf (os_remove fs p) q = none := by
  by_cases hq : q = p
  · subst hq; exact statOf_os_remove_self fs q
  · rw [statOf_os_remove_ne fs hq]; exact h

/-! ### Timestamp resolution depends on the file system only through the
looked-up path -/

theorem get_timestamp_congr (g : FilePath → Option GitResult) {fs1 fs2 : FS}
    (p : FilePath) (src : String) (h : statOf fs1 p = statOf fs2 p) :
    get_timestamp g fs1 p src = get_timestamp g fs2 p src := by
  simp only [get_timestamp, getmtime, getatime, getctime, h]

/-! ### Branch lemmas for the loop body -/

theorem sweepStep_excluded (env : SweepEnv) (cutoff : Int)
    (excluded : List FilePath) (dry : Bool) (src : String) (st : SweepState)
    (p : FilePath) (h : normpath p ∈ excluded) :
    sweepStep env cutoff excluded dry src st p =
      { st with considered := st.considered + 1,
                skipped_excluded := st.skipped_excluded + 1 } := by
  simp [sweepStep, h]

theorem sweepStep_error (env : SweepEnv) (cutoff : Int)
    (excluded : List FilePath) (dry : Bool) (src : String) (st : SweepState)
    (p : FilePath) (hni : normpath p ∉ excluded)
    (herr : get_timestamp env.gitOf st.fs p src = .error ()) :
    sweepStep env cutoff excluded dry src st p =
      { st with considered := st.considered + 1 } := by
  simp [sweepStep, hni, herr]

theorem sweepStep_ok_ge (env : SweepEnv) (cutoff : Int)
    (excluded : List FilePath) (dry : Bool) (src : String) (st : SweepState)
    (p : FilePath) (ts : Int) (hni : normpath p ∉ excluded)
    (hok : get_timestamp env.gitOf st.fs p src = .ok ts)
    (hge : cutoff ≤ ts) :
    sweepStep env cutoff excluded dry src st p =
      { st with considered := st.considered + 1 } := by
  simp [sweepStep, hni, hok, not_lt.mpr hge]

theorem sweepStep_ok_lt_dry (env : SweepEnv) (cutoff : Int)
    (excluded : List FilePath) (src : String) (st : SweepState)
    (p : FilePath) (ts : Int) (hni : normpath p ∉ excluded)
    (hok : get_timestamp env.gitOf st.fs p src = .ok ts)
    (hlt : ts < cutoff) :
    sweepStep env cutoff excluded true src st p =
      { st with considered := st.considered + 1,
                removed := st.removed + 1 } := by
  simp [sweepStep, hni, hok, hlt]

theorem sweepStep_ok_lt_fail (env : SweepEnv) (cutoff : Int)
    (excluded : List FilePath) (src : String) (st : SweepState)
    (p : FilePath) (ts : Int) (hni : normpath p ∉ excluded)
    (hok : get_timestamp env.gitOf st.fs p src = .ok ts)
    (hlt : ts < cutoff)
    (hfail : env.removeFails p = true ∨ statOf st.fs p = none) :
    sweepStep env cutoff excluded false src st p =
      { st with considered := st.considered + 1 } := by
  simp [sweepStep, hni, hok, hlt, hfail]

theorem sweepStep_ok_lt_remove (env : SweepEnv) (cutoff : Int)
    (excluded : List FilePath) (src : String) (st : SweepState)
    (p : FilePath) (ts : Int) (hni : normpath p ∉ excluded)
    (hok : get_timestamp env.gitOf st.fs p src = .ok ts)
    (hlt : ts < cutoff) (hfail : env.removeFails p = false)
    (hex : statOf st.fs p ≠ none) :
    sweepStep env cutoff excluded false src st p =
      { st with considered := st.considered + 1,
                removed := st.removed + 1,
                fs := os_remove st.fs p } := by
  simp [sweepStep, hni, hok, hlt, hfail, hex]

theorem sweepStep_fs_cases (env : SweepEnv) (cutoff : Int)
    (excluded : List FilePath) (dry : Bool) (src : String) (st : SweepState)
    (p : FilePath) :
    (sweepStep env cutoff excluded dry src st p).fs = st.fs ∨
    (sweepStep env cutoff excluded dry src st p).fs = os_remove st.fs p := by
  unfold sweepStep
  split
  · left; rfl
  · split
    · left; rfl
    · split
      · split
        · left; rfl
        · split
          · left; rfl
          · right; rfl
      · left; rfl

/-! ### Lemmas about the whole loop -/

theorem sweepRun_nil (env : SweepEnv) (cutoff : Int)
    (excluded : List FilePath) (dry : Bool) (src : String) (st : SweepState) :
    sweepRun env cutoff excluded dry src st [] = st := rfl

theorem sweepRun_cons (env : SweepEnv) (cutoff : Int)
    (excluded : List FilePath) (dry : Bool) (src : String) (st : SweepState)
    (p : FilePath) (cs : List FilePath) :
    sweepRun env cutoff excluded dry src st (p :: cs) =
      sweepRun env cutoff excluded dry src
        (sweepStep env cutoff excluded dry src st p) cs := rfl

theorem sweepRun_append (env : SweepEnv) (cutoff : Int)
    (excluded : List FilePath) (dry : Bool) (src : String) (st : SweepState)
    (cs ds : List FilePath) :
    sweepRun env cutoff excluded dry src st (cs ++ ds) =
      sweepRun env cutoff excluded dry src
        (sweepRun env cutoff excluded dry src st cs) ds :=
  List.foldl_append _ _ _ _

theorem statOf_sweepStep_ne (env : SweepEnv) (cutoff : Int)
    (excluded : List FilePath) (dry : Bool) (src : String) (st : SweepState)
    {p q : FilePath} (h : q ≠ p) :
    statOf (sweepStep env cutoff excluded dry src st p).fs q =
      statOf st.fs q := by
  rcases sweepStep_fs_cases env cutoff excluded dry src st p with hc | hc
  · rw [hc]
  · rw [hc, statOf_os_remove_ne st.fs h]

theorem statOf_sweepStep_none (env : SweepEnv) (cutoff : Int)
    (excluded : List FilePath) (dry : Bool) (src : String) (st : SweepState)
    (p : FilePath) {q : FilePath} (h : statOf st.fs q = none) :
    statOf (sweepStep env cutoff excluded dry src st p).fs q = none := by
  rcases sweepStep_fs_cases env cutoff excluded dry src st p with hc | hc
  · rw [hc]; exact h
  · rw [hc]; exact statOf_none_os_remove st.fs h

theorem statOf_sweepRun_none (env : SweepEnv) (cutoff : Int)
    (excluded : List FilePath) (dry : Bool) (src : String)
    (cs : List FilePath) (st : SweepState) {q : FilePath}
    (h : statOf st.fs q = none) :
    statOf (sweepRun env cutoff excluded dry src st cs).fs q = none := by
  induction cs generalizing st with
  | nil => exact h
  | cons c cs ih =>
    rw [sweepRun_cons]
    exact ih _ (statOf_sweepStep_none env cutoff excluded dry src st c h)

/-- While a file keeps resolving to a timestamp at or above the cutoff, the
sweep never touches it: its stat entry is preserved across the whole loop. -/
theorem statOf_sweepRun_ge (env : SweepEnv) (cutoff : Int)
    (excluded : List FilePath) (dry : Bool) (src : String)
    (cs : List FilePath) (st : SweepState) {q : FilePath} {ts : Int}
    (hok : get_timestamp env.gitOf st.fs q src = .ok ts)
    (hge : cutoff ≤ ts) :
    statOf (sweepRun env cutoff excluded dry src st cs).fs q =
      statOf st.fs q := by
  induction cs generalizing st with
  | nil => rfl
  | cons c cs ih =>
    rw [sweepRun_cons]
    have hpres : statOf (sweepStep env cutoff excluded dry src st c).fs q =
        statOf st.fs q := by
      by_cases hc : q = c
      · subst hc
        by_cases hex : normpath q ∈ excluded
        · rw [sweepStep_excluded env cutoff excluded dry src st q hex]
        · rw [sweepStep_ok_ge env cutoff excluded dry src st q ts hex hok hge]
      · exact statOf_sweepStep_ne env cutoff excluded dry src st hc
    rw [ih _ (by
      rw [get_timestamp_congr env.gitOf q src hpres]; exact hok), hpres]

/-- A non-excluded candidate that resolves strictly below the cutoff in a
non-dry-run sweep, and whose removal the environment does not fail, is gone
at the end of the loop. -/
theorem statOf_sweepRun_lt (env : SweepEnv) (cutoff : Int)
    (excluded : List FilePath) (src : String) (cs : List FilePath)
    (st : SweepState) {q : FilePath} {ts : Int}
    (hni : normpath q ∉ excluded)
    (hok : get_timestamp env.gitOf st.fs q src = .ok ts)
    (hlt : ts < cutoff) (hfail : env.removeFails q = false)
    (hmem : q ∈ cs) :
    statOf (sweepRun env cutoff excluded false src st cs).fs q = none := by
  induction cs generalizing st with
  | nil => cases hmem
  | cons c cs ih =>
    rw [sweepRun_cons]
    by_cases hc : q = c
    · subst hc
      by_cases hex : statOf st.fs q = none
      · rw [sweepStep_ok_lt_fail env cutoff excluded src st q ts hni hok hlt
              (Or.inr hex)]
        exact statOf_sweepRun_none env cutoff excluded false src cs _ hex
      · rw [sweepStep_ok_lt_remove env cutoff excluded src st q ts hni hok hlt
              hfail hex]
        exact statOf_sweepRun_none env cutoff excluded false src cs _
          (statOf_os_remove_self st.fs q)
    · have hmem : q ∈ cs := by
        rcases List.mem_cons.mp hmem with h | h
        · exact absurd h hc
        · exact h
      have hpres : statOf (sweepStep env cutoff excluded false src st c).fs q =
          statOf st.fs q :=
        statOf_sweepStep_ne env cutoff excluded false src st hc
      exact ih _ (by rw [get_timestamp_congr env.gitOf q src hpres]; exact hok)
        hmem

/-- An excluded path is never deleted, whatever its age: its stat entry is
preserved across the whole loop. -/
theorem statOf_sweepRun_excluded (env : SweepEnv) (cutoff : Int)
    (excluded : List FilePath) (dry : Bool) (src : String)
    (cs : List FilePath) (st : SweepState) {q : FilePath}
    (h : normpath q ∈ excluded) :
    statOf (sweepRun env cutoff excluded dry src st cs).fs q =
      statOf st.fs q := by
  induction cs generalizing st with
  | nil => rfl
  | cons c cs ih =>
    rw [sweepRun_cons]
    have hpres : statOf (sweepStep env cutoff excluded dry src st c).fs q =
        statOf st.fs q := by
      by_cases hc : q = c
      · subst hc; rw [sweepStep_excluded env cutoff excluded dry src st q h]
      · exact statOf_sweepStep_ne env cutoff excluded dry src st hc
    rw [ih _, hpres]

/-! ### Counting lemmas -/

theorem sweepStep_considered (env : SweepEnv) (cutoff : Int)
    (excluded : List FilePath) (dry : Bool) (src : String) (st : SweepState)
    (p : FilePath) :
    (sweepStep env cutoff excluded dry src st p).considered =
      st.considered + 1 := by
  unfold sweepStep
  split
  · rfl
  · split
    · rfl
    · split
      · split
        · rfl
        · split
          · rfl
          · rfl
      · rfl

theorem sweepRun_considered (env : SweepEnv) (cutoff : Int)
    (excluded : List FilePath) (dry : Bool) (src : String)
    (cs : List FilePath) (st : SweepState) :
    (sweepRun env cutoff excluded dry src st cs).considered =
      st.considered + cs.length := by
  induction cs generalizing st with
  | nil => rfl
  | cons c cs ih =>
    rw [sweepRun_cons, ih, sweepStep_considered, List.length_cons]
    omega

theorem sweepStep_skipped (env : SweepEnv) (cutoff : Int)
    (excluded : List FilePath) (dry : Bool) (src : String) (st : SweepState)
    (p : FilePath) :
    (sweepStep env cutoff excluded dry src st p).skipped_excluded =
      st.skipped_excluded + (if normpath p ∈ excluded then 1 else 0) := by
  unfold sweepStep
  split
  · simp_all
  · split
    · simp_all
    · split
      · split
        · simp_all
        · split
          · simp_all
          · simp_all
      · simp_all

theorem sweepRun_skipped (env : SweepEnv) (cutoff : Int)
    (excluded : List FilePath) (dry : Bool) (src : String)
    (cs : List FilePath) (st : SweepState) :
    (sweepRun env cutoff excluded dry src st cs).skipped_excluded =
      st.skipped_excluded +
        (cs.filter (fun p => decide (normpath p ∈ excluded))).length := by
  induction cs generalizing st with
  | nil => rfl
  | cons c cs ih =>
    rw [sweepRun_cons, ih, sweepStep_skipped, List.filter_cons]
    by_cases hc : normpath c ∈ excluded <;> first | (simp [hc]; omega) | simp [hc]

/-- Each loop iteration increments `removed + skipped_excluded` by at most
one (and each branch increments at most one of the two). -/
theorem sweepStep_remskip_bound (env : SweepEnv) (cutoff : Int)
    (excluded : List FilePath) (dry : Bool) (src : String) (st : SweepState)
    (p : FilePath) :
    (sweepStep env cutoff excluded dry src st p).removed +
        (sweepStep env cutoff excluded dry src st p).skipped_excluded ≤
      st.removed + st.skipped_excluded + 1 := by
  unfold sweepStep
  split
  · first | (simp; omega) | simp
  · split
    · first | (simp; omega) | simp
    · split
      · split
        · first | (simp; omega) | simp
        · split
          · first | (simp; omega) | simp
          · first | (simp; omega) | simp
      · first | (simp; omega) | simp

theorem sweepRun_remskip_bound (env : SweepEnv) (cutoff : Int)
    (excluded : List FilePath) (dry : Bool) (src : String)
    (cs : List FilePath) (st : SweepState) :
    (sweepRun env cutoff excluded dry src st cs).removed +
        (sweepRun env cutoff excluded dry src st cs).skipped_excluded ≤
      st.removed + st.skipped_excluded + cs.length := by
  induction cs generalizing st with
  | nil => simp [sweepRun_nil]
  | cons c cs ih =>
    rw [sweepRun_cons]
    calc (sweepRun env cutoff excluded dry src
            (sweepStep env cutoff excluded dry src st c) cs).removed +
          (sweepRun env cutoff excluded dry src
            (sweepStep env cutoff excluded dry src st c) cs).skipped_excluded
        ≤ (sweepStep env cutoff excluded dry src st c).removed +
            (sweepStep env cutoff excluded dry src st c).skipped_excluded +
            cs.length := ih _
      _ ≤ st.removed + st.skipped_excluded + 1 + cs.length := by
          have := sweepStep_remskip_bound env cutoff excluded dry src st c
          omega
      _ = st.removed + st.skipped_excluded + (c :: cs).length := by
          simp [List.length_cons]; omega

/-! ### Dry-run lemmas -/

theorem sweepStep_fs_dry (env : SweepEnv) (cutoff : Int)
    (excluded : List FilePath) (src : String) (st : SweepState)
    (p : FilePath) :
    (sweepStep env cutoff excluded true src st p).fs = st.fs := by
  unfold sweepStep
  split
  · rfl
  · split
    · rfl
    · split
      · rfl
      · rfl

theorem sweepRun_fs_dry (env : SweepEnv) (cutoff : Int)
    (excluded : List FilePath) (src : String) (cs : List FilePath)
    (st : SweepState) :
    (sweepRun env cutoff excluded true src st cs).fs = st.fs := by
  induction cs generalizing st with
  | nil => rfl
  | cons c cs ih =>
    rw [sweepRun_cons, ih, sweepStep_fs_dry]

theorem sweepStep_removed_dry (env : SweepEnv) (cutoff : Int)
    (excluded : List FilePath) (src : String) (st : SweepState)
    (p : FilePath) :
    (sweepStep env cutoff excluded true src st p).removed =
      st.removed +
        (if dryQualifies env.gitOf st.fs excluded cutoff src p then 1
         else 0) := by
  by_cases hex : normpath p ∈ excluded
  · rw [sweepStep_excluded env cutoff excluded true src st p hex]
    simp [dryQualifies, hex]
  · rcases hres : get_timestamp env.gitOf st.fs p src with e | ts
    · rw [sweepStep_error env cutoff excluded true src st p hex hres]
      simp [dryQualifies, hex, hres]
    · by_cases hlt : ts < cutoff
      · rw [sweepStep_ok_lt_dry env cutoff excluded src st p ts hex hres hlt]
        simp [dryQualifies, hex, hres, hlt]
      · rw [sweepStep_ok_ge env cutoff excluded true src st p ts hex hres
              (not_lt.mp hlt)]
        simp [dryQualifies, hex, hres, hlt]

theorem sweepRun_removed_dry (env : SweepEnv) (cutoff : Int)
    (excluded : List FilePath) (src : String) (cs : List FilePath)
    (st : SweepState) :
    (sweepRun env cutoff excluded true src st cs).removed =
      st.removed +
        (cs.filter (dryQualifies env.gitOf st.fs excluded cutoff src)).length
      := by
  induction cs generalizing st with
  | nil => rfl
  | cons c cs ih =>
    rw [sweepRun_cons, ih, sweepStep_removed_dry, sweepStep_fs_dry,
      List.filter_cons]
    by_cases hc : dryQualifies env.gitOf st.fs excluded cutoff src c <;>
      first | (simp [hc]; omega) | simp [hc]

/-! ### Enumerator lemmas -/

theorem mem_filesOf_not_hidden (pref : List String) (entries : EntryList)
    (p : List String) (hp : p ∈ filesOf false pref entries) :
    is_hidden p = false := by
  revert p hp
  refine filesOf.induct false pref
    (fun entries => ∀ p, p ∈ filesOf false pref entries → is_hidden p = false)
    ?_ ?_ ?_ ?_ entries
  · intro p hp
    simp [filesOf] at hp
  · intro name meta rest hcond ihr p hp
    rw [show filesOf false pref (.cons (.file name meta) rest) =
        filesOf false pref rest by simp only [filesOf]; rw [if_pos hcond]]
      at hp
    exact ihr p hp
  · intro name meta rest hcond ihr p hp
    rw [show filesOf false pref (.cons (.file name meta) rest) =
        (pref ++ [name]) :: filesOf false pref rest by
      simp only [filesOf]; rw [if_neg hcond]] at hp
    rcases List.mem_cons.mp hp with h | h
    · subst h
      simpa using hcond
    · exact ihr p h
  · intro name children rest ihr p hp
    rw [show filesOf false pref (.cons (.dir name children) rest) =
        filesOf false pref rest by simp [filesOf]] at hp
    exact ihr p hp

theorem mem_descend_not_hidden (pref : List String) (entries : EntryList)
    (p : List String) (hp : p ∈ descend false pref entries) :
    is_hidden p = false := by
  revert p hp
  refine descend.induct false
    (fun pref entries =>
      ∀ p, p ∈ descend false pref entries → is_hidden p = false)
    ?_ ?_ ?_ pref entries
  · intro pref p hp
    simp [descend] at hp
  · intro pref name meta rest ih p hp
    simp only [descend] at hp
    exact ih p hp
  · intro pref name children rest ih1 ih2 p hp
    simp only [descend] at hp
    rcases List.mem_append.mp hp with hp | hp
    · by_cases hn : startsWithDot name = true
      · simp [hn] at hp
      · have hp2 : p ∈ filesOf false (pref ++ [name]) children ++
            descend false (pref ++ [name]) children := by
          simpa [hn] using hp
        rcases List.mem_append.mp hp2 with h | h
        · exact mem_filesOf_not_hidden (pref ++ [name]) children p h
        · exact ih1 p h
    · exact ih2 p hp

theorem mem_iter_files_not_hidden (entries : EntryList) (recursive : Bool)
    {p : List String} (hp : p ∈ iter_files entries recursive false) :
    is_hidden p = false := by
  by_cases hr : recursive
  · subst hr
    rcases List.mem_append.mp (by simpa [iter_files] using hp) with h | h
    · exact mem_filesOf_not_hidden [] entries _ h
    · exact mem_descend_not_hidden [] entries _ h
  · rw [show recursive = false by simpa using hr] at hp
    exact mem_filesOf_not_hidden [] entries _ (by simpa [iter_files] using hp)

theorem mem_filesOf_shape (include_hidden : Bool) (pref : List String)
    (entries : EntryList) (p : List String)
    (hp : p ∈ filesOf include_hidden pref entries) :
    ∃ name meta, p = pref ++ [name] ∧
      Entry.file name meta ∈ entries.toList := by
  revert p hp
  refine filesOf.induct include_hidden pref
    (fun entries => ∀ p, p ∈ filesOf include_hidden pref entries →
      ∃ name meta, p = pref ++ [name] ∧
        Entry.file name meta ∈ entries.toList)
    ?_ ?_ ?_ ?_ entries
  · intro p hp
    simp [filesOf] at hp
  · intro name meta rest hcond ihr p hp
    rw [show filesOf include_hidden pref (.cons (.file name meta) rest) =
        filesOf include_hidden pref rest by
      simp only [filesOf]; rw [if_pos hcond]] at hp
    obtain ⟨n, m, h1, h2⟩ := ihr p hp
    exact ⟨n, m, h1, by simp [EntryList.toList, h2]⟩
  · intro name meta rest hcond ihr p hp
    rw [show filesOf include_hidden pref (.cons (.file name meta) rest) =
        (pref ++ [name]) :: filesOf include_hidden pref rest by
      simp only [filesOf]; rw [if_neg hcond]] at hp
    rcases List.mem_cons.mp hp with h | h
    · exact ⟨name, meta, h, by simp [EntryList.toList]⟩
    · obtain ⟨n, m, h1, h2⟩ := ihr p h
      exact ⟨n, m, h1, by simp [EntryList.toList, h2]⟩
  · intro name children rest ihr p hp
    rw [show filesOf include_hidden pref (.cons (.dir name children) rest) =
        filesOf include_hidden pref rest by simp [filesOf]] at hp
    obtain ⟨n, m, h1, h2⟩ := ihr p hp
    exact ⟨n, m, h1, by simp [EntryList.toList, h2]⟩

/-! ### Normalization lemmas -/

theorem normSegsAux_append_plain {s : String} (hs : plainSeg s)
    (l : List String) : ∀ acc : List String,
    normSegsAux acc (l ++ [s]) = normSegsAux acc l ++ [s] := by
  obtain ⟨h1, h2, h3⟩ := hs
  induction l with
  | nil =>
    intro acc
    simp [normSegsAux, h1, h2, h3]
  | cons h t ih =>
    intro acc
    by_cases hdot : h = "" ∨ h = "."
    · simpa [normSegsAux, hdot] using ih acc
    · by_cases hdd : h = ".."
      · subst hdd
        cases acc with
        | nil =>
          simpa [normSegsAux, hdot] using ih []
        | cons a acc =>
          simpa [normSegsAux, hdot] using ih acc
      · simpa [normSegsAux, hdot, hdd] using ih (h :: acc)

theorem normpath_append_plain {s : String} (hs : plainSeg s)
    (l : List String) : normpath (l ++ [s]) = normpath l ++ [s] :=
  normSegsAux_append_plain hs l []

/-! ### Error helpers -/

theorem getmtime_error {fs : FS} {q : FilePath} {e : Unit}
    (h : getmtime fs q = .error e) : statOf fs q = none := by
  unfold getmtime at h
  rcases hst : statOf fs q with _ | m
  · rfl
  · rw [hst] at h; cases h

theorem getatime_error {fs : FS} {q : FilePath} {e : Unit}
    (h : getatime fs q = .error e) : statOf fs q = none := by
  unfold getatime at h
  rcases hst : statOf fs q with _ | m
  · rfl
  · rw [hst] at h; cases h

theorem getctime_error {fs : FS} {q : FilePath} {e : Unit}
    (h : getctime fs q = .error e) : statOf fs q = none := by
  unfold getctime at h
  rcases hst : statOf fs q with _ | m
  · rfl
  · rw [hst] at h; cases h

/-! ### The claims -/

/-- C1: in a non-dry-run sweep, every enumerated file that is not excluded
and whose resolved timestamp is strictly below `cutoff = now - days*86400`
no longer exists afterwards, and every enumerated file whose resolved
timestamp is at or above the cutoff (in particular, exactly at it) is left
untouched. -/
theorem C1_nondry_sweep_removes_old_keeps_new (now : Int) (env : SweepEnv)
    (fs0 : FS) (entries : EntryList) (directory : FilePath)
    (exclude_filenames : List String) (days : Int)
    (recursive include_hidden : Bool) (src : String) (p : FilePath) (ts : Int)
    (hmem : p ∈ candidatesOf directory entries recursive include_hidden)
    (hexc : normpath p ∉ excludedOf directory exclude_filenames)
    (hfail : env.removeFails p = false)
    (hres : get_timestamp env.gitOf fs0 p src = .ok ts) :
    (ts < now - days * 86400 →
      statOf (remove_old_files now env fs0 entries directory
          exclude_filenames days false recursive include_hidden src).fs p =
        none) ∧
    (now - days * 86400 ≤ ts →
      statOf (remove_old_files now env fs0 entries directory
          exclude_filenames days false recursive include_hidden src).fs p =
        statOf fs0 p) := by
  constructor
  · intro hlt
    unfold remove_old_files
    exact statOf_sweepRun_lt env _ _ src _ _ hexc hres hlt hfail hmem
  · intro hge
    unfold remove_old_files
    exact statOf_sweepRun_ge env _ _ false src _ _ hres hge

/-- Witness for C1 on the concrete fixture: the old root file is enumerated,
not excluded, resolves below the cutoff, and is gone after the sweep. -/
theorem C1_nondry_sweep_removes_old_keeps_new_witness :
    (["root", "a.txt"] ∈ candidatesOf ["root"] exEntries false false) ∧
    statOf (remove_old_files 8640000 exEnv exFS exEntries ["root"] [] 30
        false false false "mtime").fs ["root", "a.txt"] = none :=
  ⟨by decide,
    (C1_nondry_sweep_removes_old_keeps_new 8640000 exEnv exFS exEntries
        ["root"] [] 30 false false "mtime" ["root", "a.txt"] 0 (by decide)
        (by decide) rfl rfl).1 (by decide)⟩

/-- C2: a dry-run sweep leaves the file system unchanged, its removed counter
counts exactly the non-excluded candidates resolving strictly below the
cutoff, and a second dry-run sweep over the resulting (unchanged) state
returns the identical result. -/
theorem C2_dry_run_no_deletion_deterministic (now : Int) (env : SweepEnv)
    (fs0 : FS) (entries : EntryList) (directory : FilePath)
    (exclude_filenames : List String) (days : Int)
    (recursive include_hidden : Bool) (src : String) :
    (remove_old_files now env fs0 entries directory exclude_filenames days
        true recursive include_hidden src).fs = fs0 ∧
    (remove_old_files now env fs0 entries directory exclude_filenames days
        true recursive include_hidden src).removed =
      ((candidatesOf directory entries recursive include_hidden).filter
        (dryQualifies env.gitOf fs0 (excludedOf directory exclude_filenames)
          (now - days * 86400) src)).length ∧
    remove_old_files now env
        (remove_old_files now env fs0 entries directory exclude_filenames
          days true recursive include_hidden src).fs
        entries directory exclude_filenames days true recursive include_hidden
        src =
      remove_old_files now env fs0 entries directory exclude_filenames days
        true recursive include_hidden src := by
  have h1 : (remove_old_files now env fs0 entries directory exclude_filenames
      days true recursive include_hidden src).fs = fs0 := by
    unfold remove_old_files
    exact sweepRun_fs_dry env _ _ src _ _
  refine ⟨h1, ?_, by rw [h1]⟩
  unfold remove_old_files
  simpa using sweepRun_removed_dry env (now - days * 86400)
    (excludedOf directory exclude_filenames) src
    (candidatesOf directory entries recursive include_hidden)
    { fs := fs0, removed := 0, considered := 0, skipped_excluded := 0 }

/-- C3: a candidate is skipped as excluded exactly when its normalized path
is `normpath(join(root, name))` for an excluded `name` (the skipped counter
counts exactly those candidates), an excluded path is never deleted whatever
its age, and a same-named file one directory deeper than the root is not
excluded. -/
theorem C3_exclusion_root_relative (now : Int) (env : SweepEnv) (fs0 : FS)
    (entries : EntryList) (directory : FilePath)
    (exclude_filenames : List String) (days : Int) (dry : Bool)
    (recursive include_hidden : Bool) (src : String) (q : FilePath)
    (sub nm : String) (hdir : normpath directory = directory)
    (hplain : ∀ f ∈ exclude_filenames, plainName f)
    (hsub : plainSeg sub) (hnm : plainSeg nm) :
    (normpath q ∈ excludedOf directory exclude_filenames →
      statOf (remove_old_files now env fs0 entries directory
          exclude_filenames days dry recursive include_hidden src).fs q =
        statOf fs0 q) ∧
    (remove_old_files now env fs0 entries directory exclude_filenames days
        dry recursive include_hidden src).skipped_excluded =
      ((candidatesOf directory entries recursive include_hidden).filter
        (fun p =>
          decide (normpath p ∈ excludedOf directory exclude_filenames))).length
      ∧
    normpath (directory ++ [sub, nm]) ∉
      excludedOf directory exclude_filenames := by
  refine ⟨?_, ?_, ?_⟩
  · intro hq
    unfold remove_old_files
    exact statOf_sweepRun_excluded env _ _ dry src _ _ hq
  · unfold remove_old_files
    simpa using sweepRun_skipped env (now - days * 86400)
      (excludedOf directory exclude_filenames) dry src
      (candidatesOf directory entries recursive include_hidden)
      { fs := fs0, removed := 0, considered := 0, skipped_excluded := 0 }
  · intro hmem
    obtain ⟨f, hf, heq⟩ := List.mem_map.mp hmem
    obtain ⟨hsplit, hfseg⟩ := hplain f hf
    have h1 : normpath (joinPath directory f) = directory ++ [f] := by
      rw [joinPath, hsplit, normpath_append_plain hfseg, hdir]
    have h2 : normpath (directory ++ [sub, nm]) = directory ++ [sub, nm] := by
      rw [show directory ++ [sub, nm] = (directory ++ [sub]) ++ [nm] by simp,
        normpath_append_plain hnm, normpath_append_plain hsub, hdir]
    rw [h1, h2] at heq
    have h3 : ([f] : List String) = [sub, nm] :=
      List.append_cancel_left heq
    simp at h3

/-- Witness for C3 on the concrete fixture: with `a.txt` excluded, the root
copy survives a recursive non-dry sweep, the skipped counter matches the
filter count, and the nested `sub/a.txt` is not in the excluded set. -/
theorem C3_exclusion_root_relative_witness :
    statOf (remove_old_files 8640000 exEnv exFS exEntries ["root"] ["a.txt"]
        30 false true false "mtime").fs ["root", "a.txt"] =
      statOf exFS ["root", "a.txt"] ∧
    normpath (["root"] ++ ["sub", "a.txt"]) ∉ excludedOf ["root"] ["a.txt"] :=
  ⟨(C3_exclusion_root_relative 8640000 exEnv exFS exEntries ["root"]
      ["a.txt"] 30 false true false "mtime" ["root", "a.txt"] "sub" "a.txt"
      (by decide) (by decide) (by decide) (by decide)).1 (by decide),
   (C3_exclusion_root_relative 8640000 exEnv exFS exEntries ["root"]
      ["a.txt"] 30 false true false "mtime" ["root", "a.txt"] "sub" "a.txt"
      (by decide) (by decide) (by decide) (by decide)).2.2⟩

/-- C4: with `include_hidden = false`, in either mode, no produced path has
any segment (relative to the root) starting with a dot; in particular no
path below a dot-named directory is produced. -/
theorem C4_iter_files_no_hidden_segments (entries : EntryList)
    (recursive : Bool) (p : List String)
    (hp : p ∈ iter_files entries recursive false) :
    ∀ seg ∈ p, startsWithDot seg = false := by
  have h := mem_iter_files_not_hidden entries recursive hp
  intro seg hseg
  by_contra hs
  have hh : is_hidden p = true := by
    simp only [is_hidden, List.any_eq_true]
    exact ⟨seg, hseg, by simpa using hs⟩
  rw [h] at hh
  cases hh

/-- Witness for C4 on the concrete fixture: the visible nested file is
produced by the recursive enumeration and has no hidden segment. -/
theorem C4_iter_files_no_hidden_segments_witness :
    (["sub", "a.txt"] ∈ iter_files exEntries true false) ∧
    ∀ seg ∈ (["sub", "a.txt"] : List String), startsWithDot seg = false :=
  ⟨by decide,
    C4_iter_files_no_hidden_segments exEntries true ["sub", "a.txt"]
      (by decide)⟩

/-- C5: non-recursive enumeration produces only direct children of the root
that are regular files; no deeper path is ever produced. -/
theorem C5_iter_files_nonrecursive_direct_children (entries : EntryList)
    (include_hidden : Bool) (p : List String)
    (hp : p ∈ iter_files entries false include_hidden) :
    ∃ name meta, p = [name] ∧ Entry.file name meta ∈ entries.toList := by
  have hp2 : p ∈ filesOf include_hidden [] entries := by
    simpa [iter_files] using hp
  simpa using mem_filesOf_shape include_hidden [] entries p hp2

/-- Witness for C5 on the concrete fixture. -/
theorem C5_iter_files_nonrecursive_direct_children_witness :
    (["b.txt"] ∈ iter_files exEntries false false) ∧
    ∃ name meta, (["b.txt"] : List String) = [name] ∧
      Entry.file name meta ∈ exEntries.toList :=
  ⟨by decide,
    C5_iter_files_nonrecursive_direct_children exEntries false ["b.txt"]
      (by decide)⟩

/-- C6: with the git source, a successful tool invocation with (stripped)
non-empty numeric output yields exactly that commit timestamp, any other
outcome falls back to the modification time, and success is characterized by
zero exit status, non-empty stripped output, and a parseable integer — no
invocation error is ever propagated. -/
theorem C6_git_timestamp_fallback (g : FilePath → Option GitResult) (fs : FS)
    (p : FilePath) (r : GitResult) (t : Int) :
    (git_last_commit_timestamp (g p) = some t →
      get_timestamp g fs p "git" = .ok t) ∧
    (git_last_commit_timestamp (g p) = none →
      get_timestamp g fs p "git" = getmtime fs p) ∧
    (git_last_commit_timestamp (some r) = some t ↔
      r.returncode = 0 ∧ pyStrip r.stdout ≠ "" ∧
        pyInt (pyStrip r.stdout) = some t)
    := by
  refine ⟨?_, ?_, ?_⟩
  · intro h
    simp [get_timestamp, h]
  · intro h
    simp [get_timestamp, h]
  · unfold git_last_commit_timestamp
    by_cases hrc : r.returncode = 0
    · by_cases htrim : pyStrip r.stdout = ""
      · simp [hrc, htrim]
      · simp [hrc, htrim]
    · simp [hrc]

/-- Witness for C6: a successful invocation, and a failed one falling back to
the modification time. -/
theorem C6_git_timestamp_fallback_witness :
    get_timestamp (fun _ => some ⟨0, "12345"⟩) exFS ["root", "a.txt"] "git" =
        .ok 12345 ∧
    get_timestamp exEnv.gitOf exFS ["root", "a.txt"] "git" =
        getmtime exFS ["root", "a.txt"] ∧
    git_last_commit_timestamp (some ⟨0, "12345"⟩) = some 12345 :=
  ⟨(C6_git_timestamp_fallback (fun _ => some ⟨0, "12345"⟩) exFS
      ["root", "a.txt"] ⟨0, "12345"⟩ 12345).1 (by decide),
   (C6_git_timestamp_fallback exEnv.gitOf exFS ["root", "a.txt"]
      ⟨0, "12345"⟩ 12345).2.1 rfl,
   (C6_git_timestamp_fallback (fun _ => some ⟨0, "12345"⟩) exFS
      ["root", "a.txt"] ⟨0, "12345"⟩ 12345).2.2.mpr
     ⟨rfl, by decide, by decide⟩⟩

/-- C7: timestamp resolution fails only when the path does not exist at call
time, and the sweep handles such a failure locally: the candidate only bumps
`considered` and the loop continues with the remaining candidates. -/
theorem C7_resolution_error_local_handling (g : FilePath → Option GitResult)
    (fs : FS) (q : FilePath) (src : String) (e : Unit) (env : SweepEnv)
    (st : SweepState) (p : FilePath) (rest : List FilePath) (cutoff : Int)
    (excluded : List FilePath) (dry : Bool) (src2 : String) :
    (get_timestamp g fs q src = .error e → statOf fs q = none) ∧
    (normpath p ∉ excluded →
      get_timestamp env.gitOf st.fs p src2 = .error () →
      sweepRun env cutoff excluded dry src2 st (p :: rest) =
        sweepRun env cutoff excluded dry src2
          { st with considered := st.considered + 1 } rest) := by
  constructor
  · intro h
    by_cases h1 : src = "mtime"
    · exact getmtime_error (by simpa [get_timestamp, h1] using h)
    · by_cases h2 : src = "atime"
      · exact getatime_error (by simpa [get_timestamp, h1, h2] using h)
      · by_cases h3 : src = "ctime"
        · exact getctime_error (by simpa [get_timestamp, h1, h2, h3] using h)
        · by_cases h4 : src = "git"
          · rw [show get_timestamp g fs q src =
                  match git_last_commit_timestamp (g q) with
                  | some ts => .ok ts
                  | none => getmtime fs q by
                simp [get_timestamp, h1, h2, h3, h4]] at h
            rcases hg : git_last_commit_timestamp (g q) with _ | ts
            · rw [hg] at h
              exact getmtime_error h
            · rw [hg] at h
              cases h
          · exact getmtime_error
              (by simpa [get_timestamp, h1, h2, h3, h4] using h)
  · intro hni herr
    rw [sweepRun_cons, sweepStep_error env cutoff excluded dry src2 st p hni
      herr]

/-- Witness for C7: on an empty file system the resolution error implies
non-existence, and the sweep step on the vanished candidate only counts it. -/
theorem C7_resolution_error_local_handling_witness :
    statOf ([] : FS) ["root", "gone.txt"] = none ∧
    sweepRun exEnv 6048000 [] false "mtime"
        { fs := [], removed := 0, considered := 0, skipped_excluded := 0 }
        [["root", "gone.txt"]] =
      sweepRun exEnv 6048000 [] false "mtime"
        { fs := [], removed := 0, considered := 1, skipped_excluded := 0 }
        [] :=
  ⟨(C7_resolution_error_local_handling exEnv.gitOf [] ["root", "gone.txt"]
      "mtime" () exEnv
      { fs := [], removed := 0, considered := 0, skipped_excluded := 0 }
      ["root", "gone.txt"] [] 6048000 [] false "mtime").1 rfl,
   (C7_resolution_error_local_handling exEnv.gitOf [] ["root", "gone.txt"]
      "mtime" () exEnv
      { fs := [], removed := 0, considered := 0, skipped_excluded := 0 }
      ["root", "gone.txt"] [] 6048000 [] false "mtime").2 (by decide) rfl⟩

/-- C8: when the deletion of an old, non-excluded candidate fails in a
non-dry-run sweep, the file stays, only `considered` changes for it, and the
loop continues with the remaining candidates. -/
theorem C8_deletion_failure_no_count_continue (env : SweepEnv) (cutoff : Int)
    (excluded : List FilePath) (src : String) (st : SweepState) (p : FilePath)
    (ts : Int) (rest : List FilePath) (hni : normpath p ∉ excluded)
    (hok : get_timestamp env.gitOf st.fs p src = .ok ts) (hlt : ts < cutoff)
    (hfail : env.removeFails p = true) :
    sweepStep env cutoff excluded false src st p =
        { st with considered := st.considered + 1 } ∧
    sweepRun env cutoff excluded false src st (p :: rest) =
      sweepRun env cutoff excluded false src
        { st with considered := st.considered + 1 } rest := by
  have hstep := sweepStep_ok_lt_fail env cutoff excluded src st p ts hni hok
    hlt (Or.inl hfail)
  exact ⟨hstep, by rw [sweepRun_cons, hstep]⟩

/-- Witness for C8: the always-failing environment leaves the old file in
place and only counts it. -/
theorem C8_deletion_failure_no_count_continue_witness :
    sweepStep exEnvFail 6048000 [] false "mtime"
        { fs := exFS, removed := 0, considered := 0, skipped_excluded := 0 }
        ["root", "a.txt"] =
      { fs := exFS, removed := 0, considered := 1, skipped_excluded := 0 } :=
  (C8_deletion_failure_no_count_continue exEnvFail 6048000 [] "mtime"
    { fs := exFS, removed := 0, considered := 0, skipped_excluded := 0 }
    ["root", "a.txt"] 0 [] (by decide) rfl (by decide) rfl).1

/-- C9: at every prefix of the candidate sequence, `considered` equals the
number of candidates processed, `removed + skipped_excluded` never exceeds
`considered`, one further candidate bumps `considered` by one and
`removed + skipped_excluded` by at most one, and the full sweep is the run of
the remaining candidates from that intermediate state. -/
theorem C9_counter_invariants (now : Int) (env : SweepEnv) (fs0 : FS)
    (entries : EntryList) (directory : FilePath)
    (exclude_filenames : List String) (days : Int) (dry : Bool)
    (recursive include_hidden : Bool) (src : String)
    (cs rest : List FilePath)
    (hsplit : candidatesOf directory entries recursive include_hidden =
      cs ++ rest) :
    (sweepRun env (now - days * 86400)
        (excludedOf directory exclude_filenames) dry src
        { fs := fs0, removed := 0, considered := 0, skipped_excluded := 0 }
        cs).considered = cs.length ∧
    (sweepRun env (now - days * 86400)
        (excludedOf directory exclude_filenames) dry src
        { fs := fs0, removed := 0, considered := 0, skipped_excluded := 0 }
        cs).removed +
      (sweepRun env (now - days * 86400)
        (excludedOf directory exclude_filenames) dry src
        { fs := fs0, removed := 0, considered := 0, skipped_excluded := 0 }
        cs).skipped_excluded ≤
      (sweepRun env (now - days * 86400)
        (excludedOf directory exclude_filenames) dry src
        { fs := fs0, removed := 0, considered := 0, skipped_excluded := 0 }
        cs).considered ∧
    (∀ p : FilePath,
      (sweepStep env (now - days * 86400)
          (excludedOf directory exclude_filenames) dry src
          (sweepRun env (now - days * 86400)
            (excludedOf directory exclude_filenames) dry src
            { fs := fs0, removed := 0, considered := 0,
              skipped_excluded := 0 } cs) p).considered =
        (sweepRun env (now - days * 86400)
          (excludedOf directory exclude_filenames) dry src
          { fs := fs0, removed := 0, considered := 0, skipped_excluded := 0 }
          cs).considered + 1 ∧
      (sweepStep env (now - days * 86400)
          (excludedOf directory exclude_filenames) dry src
          (sweepRun env (now - days * 86400)
            (excludedOf directory exclude_filenames) dry src
            { fs := fs0, removed := 0, considered := 0,
              skipped_excluded := 0 } cs) p).removed +
        (sweepStep env (now - days * 86400)
          (excludedOf directory exclude_filenames) dry src
          (sweepRun env (now - days * 86400)
            (excludedOf directory exclude_filenames) dry src
            { fs := fs0, removed := 0, considered := 0,
              skipped_excluded := 0 } cs) p).skipped_excluded ≤
        (sweepRun env (now - days * 86400)
          (excludedOf directory exclude_filenames) dry src
          { fs := fs0, removed := 0, considered := 0, skipped_excluded := 0 }
          cs).removed +
        (sweepRun env (now - days * 86400)
          (excludedOf directory exclude_filenames) dry src
          { fs := fs0, removed := 0, considered := 0, skipped_excluded := 0 }
          cs).skipped_excluded + 1) ∧
    remove_old_files now env fs0 entries directory exclude_filenames days dry
        recursive include_hidden src =
      sweepRun env (now - days * 86400)
        (excludedOf directory exclude_filenames) dry src
        (sweepRun env (now - days * 86400)
          (excludedOf directory exclude_filenames) dry src
          { fs := fs0, removed := 0, considered := 0, skipped_excluded := 0 }
          cs) rest := by
  refine ⟨?_, ?_, ?_, ?_⟩
  · simpa using sweepRun_considered env (now - days * 86400)
      (excludedOf directory exclude_filenames) dry src cs
      { fs := fs0, removed := 0, considered := 0, skipped_excluded := 0 }
  · have h1 := sweepRun_remskip_bound env (now - days * 86400)
      (excludedOf directory exclude_filenames) dry src cs
      { fs := fs0, removed := 0, considered := 0, skipped_excluded := 0 }
    have h2 := sweepRun_considered env (now - days * 86400)
      (excludedOf directory exclude_filenames) dry src cs
      { fs := fs0, removed := 0, considered := 0, skipped_excluded := 0 }
    simp only [h2]
    simpa using h1
  · intro p
    exact ⟨sweepStep_considered env _ _ dry src _ p,
      sweepStep_remskip_bound env _ _ dry src _ p⟩
  · unfold remove_old_files
    rw [hsplit, sweepRun_append]

/-- Witness for C9 on the concrete fixture, split after the first
candidate. -/
theorem C9_counter_invariants_witness :
    (candidatesOf ["root"] exEntries false false =
      [["root", "a.txt"]] ++ [["root", "b.txt"]]) ∧
    (sweepRun exEnv (8640000 - 30 * 86400) (excludedOf ["root"] []) false
        "mtime"
        { fs := exFS, removed := 0, considered := 0, skipped_excluded := 0 }
        [["root", "a.txt"]]).considered = 1 :=
  ⟨by decide,
    by simpa using
      (C9_counter_invariants 8640000 exEnv exFS exEntries ["root"] [] 30
        false false false "mtime" [["root", "a.txt"]] [["root", "b.txt"]]
        (by decide)).1⟩

/-- C10: `get_timestamp` is total in its source argument: any source other
than the four documented kinds falls through to the modification time. -/
theorem C10_get_timestamp_total_unknown_source
    (g : FilePath → Option GitResult) (fs : FS) (p : FilePath) (src : String)
    (h1 : src ≠ "mtime") (h2 : src ≠ "atime") (h3 : src ≠ "ctime")
    (h4 : src ≠ "git") :
    get_timestamp g fs p src = getmtime fs p := by
  simp [get_timestamp, h1, h2, h3, h4]

/-- Witness for C10 at the unrecognized source `"birthtime"`. -/
theorem C10_get_timestamp_total_unknown_source_witness :
    get_timestamp exEnv.gitOf exFS ["root", "a.txt"] "birthtime" =
      getmtime exFS ["root", "a.txt"] :=
  C10_get_timestamp_total_unknown_source exEnv.gitOf exFS ["root", "a.txt"]
    "birthtime" (by decide) (by decide) (by decide) (by decide)

end RemoveOldFiles
